import Mathlib

/-!
Shallow embedding of the chomsky-tutorial interpreter (src/main.rs):
a tiny expression language with `let` bindings and user-defined
functions, parsed by combinators and evaluated with two scope stacks.

Numbers: the Rust code computes with `f64`.  We model `f64` values as
exact rationals together with the two infinities and NaN.  IEEE-754
rounding and signed zero are not modelled; every concrete value used in
the theorems below is exactly representable, where the model and IEEE
double arithmetic agree.  The rationals are a small self-contained
gcd-normalised numerator/denominator pair so that every operation
evaluates inside the kernel.
-/

namespace Chomsky

/-- Exact rational numbers: a normalised pair of an integer numerator
and a positive natural denominator (gcd 1).  Every operation below
preserves the normalisation, so structural equality is value
equality. -/
structure Q where
  num : Int
  den : Nat
deriving DecidableEq, Repr

namespace Q

/-- Embed an integer. -/
def ofInt (n : Int) : Q := ⟨n, 1⟩

/-- Normalise a fraction with positive denominator. -/
def mk' (n : Int) (d : Nat) : Q :=
  let g := n.natAbs.gcd d
  if g = 0 then ⟨0, 1⟩ else ⟨n / (g : Int), d / g⟩

/-- Rational negation. -/
def neg (a : Q) : Q := ⟨-a.num, a.den⟩

/-- Rational addition. -/
def add (a b : Q) : Q := mk' (a.num * (b.den : Int) + b.num * (a.den : Int)) (a.den * b.den)

/-- Rational multiplication. -/
def mul (a b : Q) : Q := mk' (a.num * b.num) (a.den * b.den)

/-- Rational division; the zero divisor is never reached (callers test
for it first) and is mapped to 0. -/
def div (a b : Q) : Q :=
  if b.num = 0 then ⟨0, 1⟩
  else
    mk' (if b.num < 0 then -(a.num * (b.den : Int)) else a.num * (b.den : Int))
      (a.den * b.num.natAbs)

/-- Rational reciprocal (0 maps to 0, never reached by callers). -/
def inv (a : Q) : Q :=
  if a.num = 0 then ⟨0, 1⟩
  else if a.num < 0 then ⟨-(a.den : Int), a.num.natAbs⟩
  else ⟨(a.den : Int), a.num.natAbs⟩

/-- Natural powers. -/
def npow (q : Q) : Nat → Q
  | 0 => ⟨1, 1⟩
  | n + 1 => (npow q n).mul q

/-- Integer powers. -/
def zpow (q : Q) : Int → Q
  | Int.ofNat n => q.npow n
  | Int.negSucc n => (q.npow (n + 1)).inv

/-- Boolean comparison `a ≤ b` by cross multiplication. -/
def ble (a b : Q) : Bool := decide (a.num * (b.den : Int) ≤ b.num * (a.den : Int))

/-- Boolean strict negativity. -/
def isNeg (a : Q) : Bool := decide (a.num < 0)

/-- Boolean test for zero. -/
def isZero (a : Q) : Bool := decide (a.num = 0)

end Q

/-- Model of an `f64` value: an exact rational, an infinity (`neg` is the
sign bit), or NaN. -/
inductive F64 where
  | num (q : Q)
  | inf (neg : Bool)
  | nan
deriving DecidableEq, Repr

namespace F64

/-- Model of `f64` negation. -/
def neg : F64 → F64
  | num q => num q.neg
  | inf b => inf (!b)
  | nan => nan

/-- Model of `f64` addition (exact on finite values). -/
def add : F64 → F64 → F64
  | num a, num b => num (a.add b)
  | num _, inf b => inf b
  | inf b, num _ => inf b
  | inf a, inf b => if a = b then inf a else nan
  | nan, _ => nan
  | _, nan => nan

/-- Model of `f64` subtraction; IEEE subtraction coincides with adding
the negated operand. -/
def sub (a b : F64) : F64 := add a (neg b)

/-- Model of `f64` multiplication (exact on finite values). -/
def mul : F64 → F64 → F64
  | num a, num b => num (a.mul b)
  | num a, inf b => if a.isZero then nan else if a.isNeg then inf (!b) else inf b
  | inf b, num a => if a.isZero then nan else if a.isNeg then inf (!b) else inf b
  | inf a, inf b => inf (a != b)
  | nan, _ => nan
  | _, nan => nan

/-- Model of `f64` division: division by zero produces an infinity (or
NaN for `0/0`) exactly as IEEE-754 prescribes, never an error. -/
def div : F64 → F64 → F64
  | num a, num b =>
    if b.isZero then
      if a.isZero then nan else if a.isNeg then inf true else inf false
    else num (a.div b)
  | num _, inf _ => num ⟨0, 1⟩
  | inf s, num a => if a.isNeg then inf (!s) else inf s
  | inf _, inf _ => nan
  | nan, _ => nan
  | _, nan => nan

/-- Rust `f64::is_infinite`. -/
def isInfinite : F64 → Bool
  | inf _ => true
  | _ => false

end F64

/-- The AST of src/main.rs (`enum Expr`), constructor for constructor. -/
inductive Expr where
  | Num (x : F64)
  | Var (name : String)
  | Neg (a : Expr)
  | Add (a b : Expr)
  | Sub (a b : Expr)
  | Mul (a b : Expr)
  | Div (a b : Expr)
  | Call (name : String) (args : List Expr)
  | Let (name : String) (rhs : Expr) (thenE : Expr)
  | Fn (name : String) (args : List String) (body : Expr) (thenE : Expr)
deriving Repr

/-- The variable stack: `Vec<(&String, f64)>`, push at the right end. -/
abbrev Vars := List (String × F64)

/-- The function stack: `Vec<(&String, &[String], &Expr)>`. -/
abbrev Fns := List (String × List String × Expr)

/-- Outcome of one call to `eval`: Rust `Ok`, Rust `Err(String)`, or the
fuel bound of the embedding ran out (a modelling artefact, not a
program outcome). -/
inductive EvalResult where
  | val (x : F64)
  | err (msg : String)
  | outOfFuel
deriving DecidableEq, Repr

/-- Error message of the `Expr::Var` arm (src/main.rs line 126). -/
def undefinedVarMsg (name : String) : String :=
  "Cannot find variable `" ++ name ++ "` in scope"

/-- Error message of the `Expr::Call` arm when the function is not found
(src/main.rs line 142). -/
def undefinedFnMsg (name : String) : String :=
  "Cannot find function `" ++ name ++ "` in scope"

/-- Error message of the `Expr::Call` arm on an arity mismatch
(src/main.rs lines 148-152). -/
def arityMsg (name : String) (expected found : Nat) : String :=
  "Wrong number of arguments for function `" ++ name ++ "`: expected "
    ++ toString expected ++ ", found " ++ toString found

/-- One step of the argument-evaluation pipeline of the `Expr::Call` arm
(src/main.rs lines 155-160): Rust evaluates the arguments lazily while
collecting into `Result`, stopping at the first error; state mutations
made before the error persist. -/
def evalStep (ev : Expr → Vars → Fns → EvalResult × Vars × Fns)
    (acc : Except String Vars × Vars × Fns) (p : Expr × String) :
    Except String Vars × Vars × Fns :=
  match acc with
  | (Except.error e, vars, fns) => (Except.error e, vars, fns)
  | (Except.ok done, vars, fns) =>
    match ev p.1 vars fns with
    | (EvalResult.val v, vars2, fns2) => (Except.ok (done ++ [(p.2, v)]), vars2, fns2)
    | (EvalResult.err e, vars2, fns2) => (Except.error e, vars2, fns2)
    | (EvalResult.outOfFuel, vars2, fns2) => (Except.error "", vars2, fns2)

/-- The evaluator of src/main.rs (`fn eval`), with the two `&mut Vec`
stacks threaded explicitly and a fuel bound for the unbounded Rust
recursion.  The `Call` arm reproduces the source faithfully, including
the fact that `vars.append(&mut args_evaled)` moves all elements out of
`args_evaled` and leaves it empty, so the subsequent
`vars.truncate(vars.len() - args_evaled.len())` removes nothing. -/
def eval : Nat → Expr → Vars → Fns → EvalResult × Vars × Fns
  | 0, _, vars, fns => (EvalResult.outOfFuel, vars, fns)
  | fuel + 1, e, vars, fns =>
    match e with
    | Expr.Num x => (EvalResult.val x, vars, fns)
    | Expr.Neg a =>
      match eval fuel a vars fns with
      | (EvalResult.val x, vars1, fns1) => (EvalResult.val (F64.neg x), vars1, fns1)
      | r => r
    | Expr.Add a b =>
      match eval fuel a vars fns with
      | (EvalResult.val x, vars1, fns1) =>
        match eval fuel b vars1 fns1 with
        | (EvalResult.val y, vars2, fns2) => (EvalResult.val (F64.add x y), vars2, fns2)
        | r => r
      | r => r
    | Expr.Sub a b =>
      match eval fuel a vars fns with
      | (EvalResult.val x, vars1, fns1) =>
        match eval fuel b vars1 fns1 with
        | (EvalResult.val y, vars2, fns2) => (EvalResult.val (F64.sub x y), vars2, fns2)
        | r => r
      | r => r
    | Expr.Mul a b =>
      match eval fuel a vars fns with
      | (EvalResult.val x, vars1, fns1) =>
        match eval fuel b vars1 fns1 with
        | (EvalResult.val y, vars2, fns2) => (EvalResult.val (F64.mul x y), vars2, fns2)
        | r => r
      | r => r
    | Expr.Div a b =>
      match eval fuel a vars fns with
      | (EvalResult.val x, vars1, fns1) =>
        match eval fuel b vars1 fns1 with
        | (EvalResult.val y, vars2, fns2) => (EvalResult.val (F64.div x y), vars2, fns2)
        | r => r
      | r => r
    | Expr.Var name =>
      match vars.reverse.find? (fun p => p.1 == name) with
      | some p => (EvalResult.val p.2, vars, fns)
      | none => (EvalResult.err (undefinedVarMsg name), vars, fns)
    | Expr.Let name rhs thenE =>
      match eval fuel rhs vars fns with
      | (EvalResult.val rhsV, vars1, fns1) =>
        match eval fuel thenE (vars1 ++ [(name, rhsV)]) fns1 with
        | (output, vars2, fns2) => (output, vars2.dropLast, fns2)
      | r => r
    | Expr.Call name args =>
      match fns.reverse.find? (fun t => t.1 == name) with
      | none => (EvalResult.err (undefinedFnMsg name), vars, fns)
      | some (_, argNames, body) =>
        if argNames.length ≠ args.length then
          (EvalResult.err (arityMsg name argNames.length args.length), vars, fns)
        else
          match (args.zip argNames).foldl (evalStep (eval fuel)) (Except.ok [], vars, fns) with
          | (Except.error e, vars1, fns1) => (EvalResult.err e, vars1, fns1)
          | (Except.ok argsEvaled, vars1, fns1) =>
            -- Rust: vars.append(&mut args_evaled) drains args_evaled,
            -- so args_evaled.len() is 0 in the truncate below.
            let vars2 := vars1 ++ argsEvaled
            let argsEvaledAfterAppend : Vars := []
            match eval fuel body vars2 fns1 with
            | (output, vars3, fns3) =>
              (output, vars3.take (vars3.length - argsEvaledAfterAppend.length), fns3)
    | Expr.Fn name args body thenE =>
      match eval fuel thenE vars (fns ++ [(name, args, body)]) with
      | (output, vars1, fns1) => (output, vars1, fns1.dropLast)

/-! ## Rust `f64` literal conversion

The number parser calls `s.parse::<f64>().unwrap()` on the matched digit
string.  We model `str::parse::<f64>` by the grammar the Rust standard
library documents for `f64::from_str`:

```
Float  ::= Sign? ( 'inf' | 'infinity' | 'nan' | Number )
Number ::= Digits '.'? Digits? Exp?  |  '.' Digits Exp?
Exp    ::= ('e' | 'E') Sign? Digits
Digits ::= [0-9]+
```

with `inf`/`infinity`/`nan` matched case-insensitively.  Decimal values
beyond the finite `f64` range become infinity; in-range values are kept
as exact rationals (rounding to the nearest double is not modelled). -/

/-- Numeric value of one ASCII digit. -/
def digitVal (c : Char) : Nat := c.toNat - '0'.toNat

/-- Decimal value of a digit string. -/
def digitsToNat (cs : List Char) : Nat :=
  cs.foldl (fun acc c => acc * 10 + digitVal c) 0

/-- Magnitude at which a decimal literal overflows the finite `f64`
range; the literal is 2^1024, which bounds every finite double. -/
def f64MaxMagnitude : Q :=
  ⟨179769313486231590772930519078902473361797697894230657273430081157732675805500963132708477322407536021120113879871393357658789768814416622492847430639474124377767893424865485276302219601246094119453082952085005768838150682342462881473913110540827237163350510684586298239947245938479716304835356329624224137216, 1⟩

/-- Pack a sign and an exact decimal magnitude into an `F64`,
overflowing to infinity beyond the finite range. -/
def mkF64 (neg : Bool) (q : Q) : F64 :=
  let s := if neg then q.neg else q
  if f64MaxMagnitude.ble s then F64.inf false
  else if s.ble f64MaxMagnitude.neg then F64.inf true
  else F64.num s

/-- Parse the optional exponent suffix of a float literal; `some k`
means the suffix was well-formed (or absent) with value `10^k`. -/
def parseExp : List Char → Option Int
  | [] => some 0
  | e :: r =>
    if e = 'e' ∨ e = 'E' then
      let (eneg, r2) : Bool × List Char :=
        match r with
        | '+' :: t => (false, t)
        | '-' :: t => (true, t)
        | t => (false, t)
      let ds := r2.takeWhile Char.isDigit
      if ds ≠ [] ∧ r2.dropWhile Char.isDigit = [] then
        some (if eneg then -(digitsToNat ds : Int) else (digitsToNat ds : Int))
      else none
    else none

/-- Exact value of a decimal literal with integer part `ip`, fractional
part `fp` and decimal exponent `k`. -/
def decimalValue (ip fp : List Char) (k : Int) : Q :=
  ((Q.ofInt (digitsToNat ip)).add
      ((Q.ofInt (digitsToNat fp)).div (Q.npow ⟨10, 1⟩ fp.length))).mul
    (Q.zpow ⟨10, 1⟩ k)

/-- Strip the optional leading sign of a float literal; the returned
flag is true for a negative sign. -/
def splitSign (cs : List Char) : Bool × List Char :=
  match cs with
  | c :: r =>
    if c = '+' then (false, r) else if c = '-' then (true, r) else (false, c :: r)
  | [] => (false, [])

/-- Model of Rust `str::parse::<f64>` on the characters of the string,
following the documented `f64::from_str` grammar above: `none` models
`Err(ParseFloatError)`. -/
def rustParseF64Core (cs : List Char) : Option F64 :=
  match cs with
  | [] => none
  | _ :: _ =>
    let sn := splitSign cs
    let sneg := sn.1
    let cs1 := sn.2
    let lower := cs1.map Char.toLower
    if lower = "inf".toList ∨ lower = "infinity".toList then some (F64.inf sneg)
    else if lower = "nan".toList then some F64.nan
    else
      let ip := cs1.takeWhile Char.isDigit
      match cs1.dropWhile Char.isDigit with
      | '.' :: r2 =>
        let fp := r2.takeWhile Char.isDigit
        if ip = [] ∧ fp = [] then none
        else
          match parseExp (r2.dropWhile Char.isDigit) with
          | some k => some (mkF64 sneg (decimalValue ip fp k))
          | none => none
      | r1 =>
        if ip = [] then none
        else
          match parseExp r1 with
          | some k => some (mkF64 sneg (decimalValue ip [] k))
          | none => none

/-- Model of Rust `str::parse::<f64>`. -/
def rustParseF64 (s : String) : Option F64 := rustParseF64Core s.toList

/-! ## The parser

The chumsky combinators of `fn parser()` are modelled PEG-style: a
parser maps the remaining input to `none` (failure) or the parsed value
with the rest of the input.  chumsky's `or` rewinds to the start of the
failed alternative, and `repeated` is greedy, which these definitions
reproduce; the collected error values of `Simple<char>` are not
modelled, only success versus failure.  The two `recursive` parsers are
given a fuel bound; every combinator used by the source consumes at
least one character, so a fuel the size of the input suffices. -/

/-- Result-passing parser type. -/
abbrev P (α : Type) := List Char → Option (α × List Char)

/-- chumsky `just(c)`. -/
def pJust (c : Char) : P Char := fun s =>
  match s with
  | c2 :: rest => if c2 = c then some (c, rest) else none
  | [] => none

/-- chumsky `map`. -/
def pMap (p : P α) (f : α → β) : P β := fun s =>
  match p s with
  | some (a, r) => some (f a, r)
  | none => none

/-- chumsky `then`. -/
def pThen (p : P α) (q : P β) : P (α × β) := fun s =>
  match p s with
  | some (a, r) =>
    match q r with
    | some (b, r2) => some ((a, b), r2)
    | none => none
  | none => none

/-- chumsky `then_ignore`. -/
def pThenIgnore (p : P α) (q : P β) : P α := pMap (pThen p q) Prod.fst

/-- chumsky `ignore_then`. -/
def pIgnoreThen (p : P α) (q : P β) : P β := pMap (pThen p q) Prod.snd

/-- chumsky `or`: try the first alternative, rewind and try the second
on failure. -/
def pOr (p q : P α) : P α := fun s =>
  match p s with
  | some x => some x
  | none => q s

/-- Greedy iteration for `repeated`, bounded by an iteration count; the
grammar only repeats consuming parsers, so `input length` iterations
are always enough. -/
def pRepeatedAux (p : P α) : Nat → P (List α)
  | 0 => fun s => some ([], s)
  | n + 1 => fun s =>
    match p s with
    | some (a, r) =>
      match pRepeatedAux p n r with
      | some (as, r2) => some (a :: as, r2)
      | none => some ([a], r)
    | none => some ([], s)

/-- chumsky `repeated` (zero or more, greedy). -/
def pRepeated (p : P α) : P (List α) := fun s => pRepeatedAux p s.length s

/-- Whitespace skipping used by `padded()`. -/
def skipWS : List Char → List Char
  | c :: rest => if c.isWhitespace then skipWS rest else c :: rest
  | [] => []

/-- chumsky `padded()`: ignore whitespace before and after. -/
def pPadded (p : P α) : P α := fun s =>
  match p (skipWS s) with
  | some (a, r) => some (a, skipWS r)
  | none => none

/-- chumsky `end()`. -/
def pEnd : P Unit := fun s =>
  match s with
  | [] => some ((), [])
  | _ => none

/-- First character of a Rust `text::ident()`: ASCII letter or `_`. -/
def isIdentStart (c : Char) : Bool := c.isAlpha || c = '_'

/-- Later characters of a `text::ident()`: ASCII alphanumeric or `_`. -/
def isIdentCont (c : Char) : Bool := c.isAlphanum || c = '_'

/-- chumsky `text::ident()` (unpadded). -/
def pIdentRaw : P String := fun s =>
  match s with
  | c :: rest =>
    if isIdentStart c then
      some (String.mk (c :: rest.takeWhile isIdentCont), rest.dropWhile isIdentCont)
    else none
  | [] => none

/-- The source's `ident`: `text::ident().padded()`. -/
def pIdent : P String := pPadded pIdentRaw

/-- chumsky `text::keyword(kw)`: an identifier that must equal `kw`. -/
def pKeyword (kw : String) : P Unit := fun s =>
  match pIdentRaw s with
  | some (id, r) => if id = kw then some ((), r) else none
  | none => none

/-- chumsky `text::int(10)` as the spec's grammar gives it: one or more
ASCII digits (`number := digit+`). -/
def pIntRaw : P String := fun s =>
  match s.takeWhile Char.isDigit with
  | [] => none
  | ds => some (String.mk ds, s.dropWhile Char.isDigit)

/-- The source's `int` parser:
`text::int(10).map(|s| Expr::Num(s.parse().unwrap())).padded()`.
Rust unwraps the conversion; the `none` branch models the panic and is
proved unreachable below. -/
def pInt : P Expr :=
  pPadded (fun s =>
    match pIntRaw s with
    | some (ds, r) =>
      match rustParseF64 ds with
      | some v => some (Expr.Num v, r)
      | none => none
    | none => none)

/-- The source's `op(c)`: `just(c).padded()`. -/
def pOp (c : Char) : P Char := pPadded (pJust c)

/-- chumsky `separated_by(just(sep)).allow_trailing()`: zero or more
items separated by `sep`, with one optional trailing `sep` after a
non-empty list. -/
def pSepByTrailing (p : P α) (sep : Char) : P (List α) := fun s =>
  match p s with
  | none => some ([], s)
  | some (a, r) =>
    match pRepeated (pIgnoreThen (pJust sep) p) r with
    | some (as, r2) =>
      match pJust sep r2 with
      | some (_, r3) => some (a :: as, r3)
      | none => some (a :: as, r2)
    | none => some ([a], r)

/-- Parenthesised, comma-separated (trailing comma allowed) call
argument list. -/
def pCallArgs (pexpr : P Expr) : P (List Expr) :=
  pThenIgnore (pIgnoreThen (pJust '(') (pSepByTrailing pexpr ',')) (pJust ')')

/-- The source's `call`: an identifier followed by its argument list. -/
def pCall (pexpr : P Expr) : P Expr :=
  pMap (pThen pIdent (pCallArgs pexpr)) (fun fa => Expr.Call fa.1 fa.2)

/-- The source's `atom`:
`int.or(expr.delimited_by('(', ')')).or(call).or(ident.map(Expr::Var))`. -/
def pAtom (pexpr : P Expr) : P Expr :=
  pOr pInt
    (pOr (pThenIgnore (pIgnoreThen (pJust '(') pexpr) (pJust ')'))
      (pOr (pCall pexpr) (pMap pIdent Expr.Var)))

/-- The source's `unary`: `op('-').repeated().then(atom).foldr(Neg)`. -/
def pUnary (patom : P Expr) : P Expr :=
  pMap (pThen (pRepeated (pOp '-')) patom)
    (fun oa => oa.1.foldr (fun _ acc => Expr.Neg acc) oa.2)

/-- Fold-left chain of a term parser and an operator parser, as the
source's `product` and `sum` build it. -/
def pBinChain (pterm : P Expr) (ops : P (Expr → Expr → Expr)) : P Expr :=
  pMap (pThen pterm (pRepeated (pThen ops pterm)))
    (fun fr => fr.2.foldl (fun lhs p => p.1 lhs p.2) fr.1)

/-- The `*`/`/` operator alternatives of `product`. -/
def pMulDiv : P (Expr → Expr → Expr) :=
  pOr (pMap (pOp '*') (fun _ => Expr.Mul)) (pMap (pOp '/') (fun _ => Expr.Div))

/-- The `+`/`-` operator alternatives of `sum`. -/
def pAddSub : P (Expr → Expr → Expr) :=
  pOr (pMap (pOp '+') (fun _ => Expr.Add)) (pMap (pOp '-') (fun _ => Expr.Sub))

/-- The recursive `expr` parser (`sum` is its entry point), with fuel
for the recursion through parentheses and call arguments. -/
def pExpr : Nat → P Expr
  | 0 => fun _ => none
  | fuel + 1 =>
    pBinChain (pBinChain (pUnary (pAtom (pExpr fuel))) pMulDiv) pAddSub

/-- The source's `let` declaration:
`keyword("let") ident "=" expr ";" decl`. -/
def pLetDecl (pexpr : P Expr) (pdecl : P Expr) : P Expr :=
  pMap
    (pThen (pThenIgnore (pThen (pIgnoreThen (pKeyword "let") pIdent)
        (pIgnoreThen (pJust '=') pexpr)) (pJust ';')) pdecl)
    (fun nt => Expr.Let nt.1.1 nt.1.2 nt.2)

/-- The source's `fn` declaration:
`keyword("fn") ident ident* "=" expr ";" decl`. -/
def pFnDecl (pexpr : P Expr) (pdecl : P Expr) : P Expr :=
  pMap
    (pThen (pThenIgnore (pThen (pThen (pIgnoreThen (pKeyword "fn") pIdent)
        (pRepeated pIdent)) (pIgnoreThen (pJust '=') pexpr)) (pJust ';')) pdecl)
    (fun nt => Expr.Fn nt.1.1.1 nt.1.1.2 nt.1.2 nt.2)

/-- The recursive `decl` parser: `let.or(fn).or(expr).padded()`. -/
def pDecl (efuel : Nat) : Nat → P Expr
  | 0 => fun _ => none
  | fuel + 1 =>
    pPadded
      (pOr (pLetDecl (pExpr efuel) (pDecl efuel fuel))
        (pOr (pFnDecl (pExpr efuel) (pDecl efuel fuel)) (pExpr efuel)))

/-- The source's `fn parser()`: `decl.then_ignore(end())`, so the whole
input must be consumed. -/
def parser (fuel : Nat) (src : String) : Option Expr :=
  match pThenIgnore (pDecl fuel fuel) pEnd src.toList with
  | some (e, _) => some e
  | none => none

/-- The driver in `fn main()`: parse, then evaluate the AST with two
fresh empty stacks; `none` means the parser reported syntax errors and
evaluation never ran. -/
def runProgram (fuel : Nat) (src : String) : Option EvalResult :=
  match parser fuel src with
  | some ast => some (eval fuel ast [] []).1
  | none => none

/-! ## Reference definitions for the claims -/

/-- Expressions built only from literals and the arithmetic operators:
no variables, no calls, no bindings. -/
def varCallFree : Expr → Bool
  | Expr.Num _ => true
  | Expr.Neg a => varCallFree a
  | Expr.Add a b => varCallFree a && varCallFree b
  | Expr.Sub a b => varCallFree a && varCallFree b
  | Expr.Mul a b => varCallFree a && varCallFree b
  | Expr.Div a b => varCallFree a && varCallFree b
  | _ => false

/-- Standard arithmetic reading of an AST, as the spec describes
evaluation of variable- and call-free expressions (the value on the
remaining constructors is irrelevant and arbitrary). -/
def arith : Expr → F64
  | Expr.Num x => x
  | Expr.Neg a => F64.neg (arith a)
  | Expr.Add a b => F64.add (arith a) (arith b)
  | Expr.Sub a b => F64.sub (arith a) (arith b)
  | Expr.Mul a b => F64.mul (arith a) (arith b)
  | Expr.Div a b => F64.div (arith a) (arith b)
  | _ => F64.nan

/-- Recursion depth of the arithmetic fragment, used to supply the
evaluator with enough fuel. -/
def arithDepth : Expr → Nat
  | Expr.Neg a => arithDepth a + 1
  | Expr.Add a b => max (arithDepth a) (arithDepth b) + 1
  | Expr.Sub a b => max (arithDepth a) (arithDepth b) + 1
  | Expr.Mul a b => max (arithDepth a) (arithDepth b) + 1
  | Expr.Div a b => max (arithDepth a) (arithDepth b) + 1
  | _ => 1

/-! ## Helper lemmas -/

theorem find?_none {α : Type} (p : α → Bool) (l : List α)
    (h : ∀ a ∈ l, p a = false) : l.find? p = none := by
  induction l with
  | nil => rfl
  | cons a t ih =>
    simp only [List.find?]
    rw [h a (by simp)]
    exact ih fun b hb => h b (by simp [hb])

theorem find?_append_of_none {α : Type} (p : α → Bool) (l₁ l₂ : List α)
    (h : ∀ a ∈ l₁, p a = false) : (l₁ ++ l₂).find? p = l₂.find? p := by
  induction l₁ with
  | nil => rfl
  | cons a t ih =>
    simp only [List.cons_append, List.find?]
    rw [h a (by simp)]
    exact ih fun b hb => h b (by simp [hb])

theorem takeWhile_all_eq {α : Type} (p : α → Bool) (l : List α)
    (h : ∀ a ∈ l, p a = true) : l.takeWhile p = l := by
  induction l with
  | nil => rfl
  | cons a t ih =>
    simp only [List.takeWhile]
    rw [h a (by simp)]
    simp only [ih fun b hb => h b (by simp [hb])]

theorem dropWhile_all_nil {α : Type} (p : α → Bool) (l : List α)
    (h : ∀ a ∈ l, p a = true) : l.dropWhile p = [] := by
  induction l with
  | nil => rfl
  | cons a t ih =>
    simp only [List.dropWhile]
    rw [h a (by simp)]
    exact ih fun b hb => h b (by simp [hb])

theorem mem_of_mem_takeWhile {α : Type} (p : α → Bool) (l : List α) (a : α)
    (h : a ∈ l.takeWhile p) : p a = true := by
  induction l with
  | nil => simp [List.takeWhile] at h
  | cons b t ih =>
    simp only [List.takeWhile] at h
    cases hb : p b with
    | true =>
      rw [hb] at h
      rcases List.mem_cons.mp h with h1 | h2
      · rw [h1]; exact hb
      · exact ih h2
    | false => rw [hb] at h; simp at h

theorem toLower_digit (c : Char) (h : c.isDigit = true) : c.toLower = c := by
  simp only [Char.isDigit, ge_iff_le, Bool.and_eq_true, decide_eq_true_eq] at h
  have h3 : c.toNat ≤ 57 := UInt32.toNat_le_of_le (by decide) h.2
  simp only [Char.toLower]
  rw [if_neg]
  intro hc
  omega

theorem digit_ne_plus (c : Char) (h : c.isDigit = true) : c ≠ '+' := by
  intro hc
  rw [hc] at h
  exact absurd h (by decide)

theorem digit_ne_minus (c : Char) (h : c.isDigit = true) : c ≠ '-' := by
  intro hc
  rw [hc] at h
  exact absurd h (by decide)

/-! ## General facts about the evaluator -/

theorem eval_var_found (fuel : Nat) (name : String) (x : F64) (pre post : Vars)
    (fns : Fns) (h : ∀ p ∈ post, p.1 ≠ name) :
    eval (fuel + 1) (Expr.Var name) (pre ++ (name, x) :: post) fns
      = (EvalResult.val x, pre ++ (name, x) :: post, fns) := by
  have hrev : (pre ++ (name, x) :: post).reverse
      = post.reverse ++ (name, x) :: pre.reverse := by
    simp
  have hnone : ∀ p ∈ post.reverse, (p.1 == name) = false := by
    intro p hp
    exact beq_eq_false_iff_ne.mpr (h p (List.mem_reverse.mp hp))
  simp only [eval, hrev]
  rw [find?_append_of_none _ _ _ hnone]
  simp [List.find?]

theorem eval_var_notfound (fuel : Nat) (name : String) (vars : Vars) (fns : Fns)
    (h : ∀ p ∈ vars, p.1 ≠ name) :
    eval (fuel + 1) (Expr.Var name) vars fns
      = (EvalResult.err (undefinedVarMsg name), vars, fns) := by
  have hnone : ∀ p ∈ vars.reverse, (p.1 == name) = false := by
    intro p hp
    exact beq_eq_false_iff_ne.mpr (h p (List.mem_reverse.mp hp))
  simp only [eval]
  rw [find?_none _ _ hnone]

theorem eval_call_fn_notfound (fuel : Nat) (name : String) (args : List Expr)
    (vars : Vars) (fns : Fns) (h : ∀ t ∈ fns, t.1 ≠ name) :
    eval (fuel + 1) (Expr.Call name args) vars fns
      = (EvalResult.err (undefinedFnMsg name), vars, fns) := by
  have hnone : ∀ t ∈ fns.reverse, (t.1 == name) = false := by
    intro t ht
    exact beq_eq_false_iff_ne.mpr (h t (List.mem_reverse.mp ht))
  simp only [eval]
  rw [find?_none _ _ hnone]

theorem eval_call_arity (fuel : Nat) (name : String) (args : List Expr)
    (ps : List String) (body : Expr) (vars : Vars) (fns : Fns)
    (hf : fns.reverse.find? (fun t => t.1 == name) = some (name, ps, body))
    (hlen : ps.length ≠ args.length) :
    eval (fuel + 1) (Expr.Call name args) vars fns
      = (EvalResult.err (arityMsg name ps.length args.length), vars, fns) := by
  simp only [eval, hf]
  rw [if_pos hlen]

theorem eval_div_ok (fuel : Nat) (a b : Expr) (vars : Vars) (fns : Fns)
    (x y : F64) (vars1 vars2 : Vars) (fns1 fns2 : Fns)
    (ha : eval fuel a vars fns = (EvalResult.val x, vars1, fns1))
    (hb : eval fuel b vars1 fns1 = (EvalResult.val y, vars2, fns2)) :
    eval (fuel + 1) (Expr.Div a b) vars fns
      = (EvalResult.val (F64.div x y), vars2, fns2) := by
  simp only [eval, ha, hb]

theorem eval_num (fuel : Nat) (v : F64) (vars : Vars) (fns : Fns) :
    eval (fuel + 1) (Expr.Num v) vars fns = (EvalResult.val v, vars, fns) := rfl

theorem foldl_evalStep_num (fuel : Nat) (vals : List F64) :
    ∀ (ps : List String) (acc : Vars) (vars : Vars) (fns : Fns),
      ((vals.map Expr.Num).zip ps).foldl (evalStep (eval (fuel + 1)))
          (Except.ok acc, vars, fns)
        = (Except.ok (acc ++ ps.zip vals), vars, fns) := by
  induction vals with
  | nil => intro ps acc vars fns; simp
  | cons v vs ih =>
    intro ps acc vars fns
    cases ps with
    | nil => simp
    | cons p pt =>
      simp only [List.map_cons, List.zip_cons_cons, List.foldl_cons, evalStep, eval_num]
      rw [ih pt (acc ++ [(p, v)]) vars fns]
      simp

theorem eval_call_eq (fuel : Nat) (name : String) (args : List Expr)
    (vars : Vars) (fns : Fns) :
    eval (fuel + 1) (Expr.Call name args) vars fns
      = match fns.reverse.find? (fun t => t.1 == name) with
        | none => (EvalResult.err (undefinedFnMsg name), vars, fns)
        | some (_, argNames, body) =>
          if argNames.length ≠ args.length then
            (EvalResult.err (arityMsg name argNames.length args.length), vars, fns)
          else
            match (args.zip argNames).foldl (evalStep (eval fuel)) (Except.ok [], vars, fns) with
            | (Except.error e, vars1, fns1) => (EvalResult.err e, vars1, fns1)
            | (Except.ok argsEvaled, vars1, fns1) =>
              match eval fuel body (vars1 ++ argsEvaled) fns1 with
              | (output, vars3, fns3) =>
                (output, vars3.take (vars3.length - ([] : Vars).length), fns3) := rfl

theorem eval_call_env (fuel : Nat) (name : String) (ps : List String) (body : Expr)
    (vals : List F64) (vars : Vars) (fns : Fns)
    (hf : fns.reverse.find? (fun t => t.1 == name) = some (name, ps, body))
    (hlen : ps.length = vals.length) :
    eval (fuel + 2) (Expr.Call name (vals.map Expr.Num)) vars fns
      = eval (fuel + 1) body (vars ++ ps.zip vals) fns := by
  have hne : ¬(ps.length ≠ (vals.map Expr.Num).length) := by simp [hlen]
  show eval ((fuel + 1) + 1) (Expr.Call name (vals.map Expr.Num)) vars fns = _
  rw [eval_call_eq, hf]
  simp only [if_neg hne]
  rw [foldl_evalStep_num fuel vals ps [] vars fns]
  simp only [List.nil_append]
  rcases hbody : eval (fuel + 1) body (vars ++ ps.zip vals) fns with ⟨out, vars3, fns3⟩
  simp [hbody]

theorem eval_arith (fuel : Nat) :
    ∀ (e : Expr) (vars : Vars) (fns : Fns), varCallFree e = true →
      arithDepth e ≤ fuel →
      eval fuel e vars fns = (EvalResult.val (arith e), vars, fns) := by
  induction fuel with
  | zero =>
    intro e vars fns hfree hd
    exfalso
    cases e <;> simp [arithDepth] at hd
  | succ n ih =>
    intro e vars fns hfree hd
    cases e with
    | Num x => rfl
    | Neg a =>
      simp only [varCallFree] at hfree
      simp only [arithDepth] at hd
      simp only [eval, ih a vars fns hfree (by omega), arith]
    | Add a b =>
      rw [varCallFree, Bool.and_eq_true] at hfree
      simp only [arithDepth] at hd
      simp only [eval, ih a vars fns hfree.1 (by omega),
        ih b vars fns hfree.2 (by omega), arith]
    | Sub a b =>
      rw [varCallFree, Bool.and_eq_true] at hfree
      simp only [arithDepth] at hd
      simp only [eval, ih a vars fns hfree.1 (by omega),
        ih b vars fns hfree.2 (by omega), arith]
    | Mul a b =>
      rw [varCallFree, Bool.and_eq_true] at hfree
      simp only [arithDepth] at hd
      simp only [eval, ih a vars fns hfree.1 (by omega),
        ih b vars fns hfree.2 (by omega), arith]
    | Div a b =>
      rw [varCallFree, Bool.and_eq_true] at hfree
      simp only [arithDepth] at hd
      simp only [eval, ih a vars fns hfree.1 (by omega),
        ih b vars fns hfree.2 (by omega), arith]
    | Var name => simp [varCallFree] at hfree
    | Call name args => simp [varCallFree] at hfree
    | Let name rhs thenE => simp [varCallFree] at hfree
    | Fn name args body thenE => simp [varCallFree] at hfree

/-! ## General facts about the parser and the literal conversion -/

theorem parser_consumes_all (fuel : Nat) (src : String) (e : Expr)
    (h : parser fuel src = some e) : pDecl fuel fuel src.toList = some (e, []) := by
  unfold parser pThenIgnore pMap pThen at h
  cases hd : pDecl fuel fuel src.toList with
  | none => rw [hd] at h; simp at h
  | some er =>
    obtain ⟨e2, r⟩ := er
    rw [hd] at h
    cases r with
    | nil =>
      simp [pEnd] at h
      rw [h]
    | cons c t => simp [pEnd] at h

theorem rustParseF64Core_digits (ds : List Char) (h1 : ds ≠ [])
    (h2 : ∀ c ∈ ds, c.isDigit = true) :
    (rustParseF64Core ds).isSome = true := by
  cases ds with
  | nil => exact absurd rfl h1
  | cons d dt =>
    have hd : d.isDigit = true := h2 d (by simp)
    have hsplit : splitSign (d :: dt) = (false, d :: dt) := by
      simp only [splitSign]
      rw [if_neg (digit_ne_plus d hd), if_neg (digit_ne_minus d hd)]
    have hne1 : (d :: dt).map Char.toLower ≠ "inf".toList := by
      intro hh
      rw [List.map_cons, toLower_digit d hd] at hh
      rw [show "inf".toList = 'i' :: "nf".toList from rfl] at hh
      simp only [List.cons.injEq] at hh
      rw [hh.1] at hd
      exact absurd hd (by decide)
    have hne2 : (d :: dt).map Char.toLower ≠ "infinity".toList := by
      intro hh
      rw [List.map_cons, toLower_digit d hd] at hh
      rw [show "infinity".toList = 'i' :: "nfinity".toList from rfl] at hh
      simp only [List.cons.injEq] at hh
      rw [hh.1] at hd
      exact absurd hd (by decide)
    have hne3 : (d :: dt).map Char.toLower ≠ "nan".toList := by
      intro hh
      rw [List.map_cons, toLower_digit d hd] at hh
      rw [show "nan".toList = 'n' :: "an".toList from rfl] at hh
      simp only [List.cons.injEq] at hh
      rw [hh.1] at hd
      exact absurd hd (by decide)
    simp only [rustParseF64Core, hsplit]
    rw [if_neg (fun hor => Or.elim hor (fun hh => hne1 hh) (fun hh => hne2 hh))]
    rw [if_neg hne3]
    rw [takeWhile_all_eq _ _ h2, dropWhile_all_nil _ _ h2]
    simp [parseExp]

theorem pIntRaw_parses (cs : List Char) (s : String) (rest : List Char)
    (h : pIntRaw cs = some (s, rest)) : (rustParseF64 s).isSome = true := by
  unfold pIntRaw at h
  cases hds : cs.takeWhile Char.isDigit with
  | nil => rw [hds] at h; simp at h
  | cons d dt =>
    rw [hds] at h
    simp only [Option.some.injEq, Prod.mk.injEq] at h
    have hdig : ∀ c ∈ d :: dt, c.isDigit = true := by
      intro c hc
      exact mem_of_mem_takeWhile Char.isDigit cs c (hds ▸ hc)
    have : (rustParseF64Core (d :: dt)).isSome = true :=
      rustParseF64Core_digits (d :: dt) (by simp) hdig
    rw [← h.1]
    exact this

/-! ## Symbolic parsing of an identifier followed by a call argument list -/

theorem identStart_ne (c x : Char) (h : isIdentStart c = true)
    (hx : isIdentStart x = false) : c ≠ x := by
  intro hc
  rw [hc, hx] at h
  exact absurd h (by simp)

theorem identStart_not_ws (c : Char) (h : isIdentStart c = true) :
    c.isWhitespace = false := by
  cases hw : c.isWhitespace with
  | false => rfl
  | true =>
    exfalso
    simp only [Char.isWhitespace, Bool.or_eq_true, decide_eq_true_eq] at hw
    rcases hw with ((h1 | h2) | h3) | h4
    · rw [h1] at h; exact absurd h (by decide)
    · rw [h2] at h; exact absurd h (by decide)
    · rw [h3] at h; exact absurd h (by decide)
    · rw [h4] at h; exact absurd h (by decide)

theorem identStart_not_digit (c : Char) (h : isIdentStart c = true) :
    c.isDigit = false := by
  cases hd : c.isDigit with
  | false => rfl
  | true =>
    exfalso
    simp only [isIdentStart, Bool.or_eq_true, decide_eq_true_eq] at h
    rcases h with ha | hu
    · simp only [Char.isAlpha, Char.isUpper, Char.isLower, Bool.or_eq_true,
        Bool.and_eq_true, decide_eq_true_eq, ge_iff_le] at ha
      simp only [Char.isDigit, Bool.and_eq_true, decide_eq_true_eq, ge_iff_le] at hd
      rcases ha with ⟨h1, _⟩ | ⟨h1, _⟩
      · exact absurd (UInt32.le_trans h1 hd.2) (by decide)
      · exact absurd (UInt32.le_trans h1 hd.2) (by decide)
    · rw [hu] at hd; exact absurd hd (by decide)

theorem skipWS_cons_not_ws (c : Char) (cs : List Char) (h : c.isWhitespace = false) :
    skipWS (c :: cs) = c :: cs := by
  simp [skipWS, h]

theorem takeWhile_append_stop {α : Type} (p : α → Bool) (l : List α) (x : α) (t : List α)
    (hl : ∀ a ∈ l, p a = true) (hx : p x = false) :
    (l ++ x :: t).takeWhile p = l := by
  induction l with
  | nil => simp [List.takeWhile, hx]
  | cons a r ih =>
    simp only [List.cons_append, List.takeWhile]
    rw [hl a (by simp)]
    simp only [List.append_eq, ih fun b hb => hl b (by simp [hb])]

theorem dropWhile_append_stop {α : Type} (p : α → Bool) (l : List α) (x : α) (t : List α)
    (hl : ∀ a ∈ l, p a = true) (hx : p x = false) :
    (l ++ x :: t).dropWhile p = x :: t := by
  induction l with
  | nil => simp [List.dropWhile, hx]
  | cons a r ih =>
    simp only [List.cons_append, List.dropWhile]
    rw [hl a (by simp)]
    exact ih fun b hb => hl b (by simp [hb])



theorem pJust_ne (ch c : Char) (cs : List Char) (h : c ≠ ch) :
    pJust ch (c :: cs) = none := by
  simp [pJust, h]

theorem pRepeatedAux_of_none {α : Type} (p : P α) (n : Nat) (s : List Char)
    (h : p s = none) : pRepeatedAux p n s = some ([], s) := by
  cases n <;> simp [pRepeatedAux, h]

theorem pRepeated_of_none {α : Type} (p : P α) (s : List Char) (h : p s = none) :
    pRepeated p s = some ([], s) :=
  pRepeatedAux_of_none p s.length s h

theorem pOp_fails (ch c : Char) (cs : List Char) (hw : c.isWhitespace = false)
    (hne : c ≠ ch) : pOp ch (c :: cs) = none := by
  unfold pOp pPadded
  rw [skipWS_cons_not_ws c cs hw, pJust_ne ch c cs hne]

theorem pInt_ident_fails (c : Char) (cs : List Char) (hc : isIdentStart c = true) :
    pInt (c :: cs) = none := by
  unfold pInt pPadded
  rw [skipWS_cons_not_ws c cs (identStart_not_ws c hc)]
  unfold pIntRaw
  simp [List.takeWhile, identStart_not_digit c hc]

theorem pParen_fails (pexpr : P Expr) (c : Char) (cs : List Char) (h : c ≠ '(') :
    pThenIgnore (pIgnoreThen (pJust '(') pexpr) (pJust ')') (c :: cs) = none := by
  unfold pThenIgnore pIgnoreThen pMap pThen
  simp only [pJust_ne '(' c cs h]

theorem pIdentRaw_split (c : Char) (cs0 : List Char) (x : Char) (t : List Char)
    (hc : isIdentStart c = true) (hcs : ∀ a ∈ cs0, isIdentCont a = true)
    (hxc : isIdentCont x = false) :
    pIdentRaw (c :: (cs0 ++ x :: t)) = some (String.mk (c :: cs0), x :: t) := by
  unfold pIdentRaw
  simp only [hc, if_true]
  rw [takeWhile_append_stop _ _ _ _ hcs hxc, dropWhile_append_stop _ _ _ _ hcs hxc]

theorem pIdent_split (c : Char) (cs0 : List Char) (x : Char) (t : List Char)
    (hc : isIdentStart c = true) (hcs : ∀ a ∈ cs0, isIdentCont a = true)
    (hxc : isIdentCont x = false) (hxw : x.isWhitespace = false) :
    pIdent (c :: (cs0 ++ x :: t)) = some (String.mk (c :: cs0), x :: t) := by
  unfold pIdent pPadded
  rw [skipWS_cons_not_ws c _ (identStart_not_ws c hc)]
  simp only [pIdentRaw_split c cs0 x t hc hcs hxc]
  rw [skipWS_cons_not_ws x t hxw]

theorem pKeyword_split (kw : String) (c : Char) (cs0 : List Char) (x : Char) (t : List Char)
    (hc : isIdentStart c = true) (hcs : ∀ a ∈ cs0, isIdentCont a = true)
    (hxc : isIdentCont x = false) :
    pKeyword kw (c :: (cs0 ++ x :: t))
      = if String.mk (c :: cs0) = kw then some ((), x :: t) else none := by
  unfold pKeyword
  simp only [pIdentRaw_split c cs0 x t hc hcs hxc]

theorem pIdent_lparen_fails (t : List Char) : pIdent ('(' :: t) = none := by
  unfold pIdent pPadded
  rw [skipWS_cons_not_ws '(' t (by decide)]
  unfold pIdentRaw
  simp [show isIdentStart '(' = false from rfl]

theorem pLetDecl_fails (pe pd : P Expr) (c : Char) (cs0 t : List Char)
    (hc : isIdentStart c = true) (hcs : ∀ a ∈ cs0, isIdentCont a = true) :
    pLetDecl pe pd (c :: (cs0 ++ '(' :: t)) = none := by
  unfold pLetDecl pIgnoreThen pThenIgnore pMap pThen
  simp only [pKeyword_split "let" c cs0 '(' t hc hcs (by decide)]
  by_cases hkw : String.mk (c :: cs0) = "let"
  · simp only [if_pos hkw, pIdent_lparen_fails]
  · simp only [if_neg hkw]

theorem pFnDecl_fails (pe pd : P Expr) (c : Char) (cs0 t : List Char)
    (hc : isIdentStart c = true) (hcs : ∀ a ∈ cs0, isIdentCont a = true) :
    pFnDecl pe pd (c :: (cs0 ++ '(' :: t)) = none := by
  unfold pFnDecl pIgnoreThen pThenIgnore pMap pThen
  simp only [pKeyword_split "fn" c cs0 '(' t hc hcs (by decide)]
  by_cases hkw : String.mk (c :: cs0) = "fn"
  · simp only [if_pos hkw, pIdent_lparen_fails]
  · simp only [if_neg hkw]



theorem pCall_ident (pexpr : P Expr) (c : Char) (cs0 t : List Char) (args : List Expr)
    (hc : isIdentStart c = true) (hcs : ∀ a ∈ cs0, isIdentCont a = true)
    (hargs : pCallArgs pexpr ('(' :: t) = some (args, [])) :
    pCall pexpr (c :: (cs0 ++ '(' :: t))
      = some (Expr.Call (String.mk (c :: cs0)) args, []) := by
  unfold pCall pMap pThen
  simp only [pIdent_split c cs0 '(' t hc hcs (by decide) (by decide), hargs]

theorem pAtom_ident_call (pexpr : P Expr) (c : Char) (cs0 t : List Char) (args : List Expr)
    (hc : isIdentStart c = true) (hcs : ∀ a ∈ cs0, isIdentCont a = true)
    (hargs : pCallArgs pexpr ('(' :: t) = some (args, [])) :
    pAtom pexpr (c :: (cs0 ++ '(' :: t))
      = some (Expr.Call (String.mk (c :: cs0)) args, []) := by
  unfold pAtom pOr
  simp only [pInt_ident_fails c _ hc,
    pParen_fails pexpr c _ (identStart_ne c '(' hc (by decide)),
    pCall_ident pexpr c cs0 t args hc hcs hargs]

theorem pUnary_ident (patom : P Expr) (c : Char) (cs : List Char) (e : Expr)
    (rest : List Char) (hc : isIdentStart c = true)
    (ha : patom (c :: cs) = some (e, rest)) :
    pUnary patom (c :: cs) = some (e, rest) := by
  unfold pUnary pMap pThen
  simp only [pRepeated_of_none _ _
    (pOp_fails '-' c cs (identStart_not_ws c hc) (identStart_ne c '-' hc (by decide))), ha,
    List.foldr_nil]

theorem pThen_some {α β : Type} (p : P α) (q : P β) (s r r2 : List Char) (a : α) (b : β)
    (hp : p s = some (a, r)) (hq : q r = some (b, r2)) :
    pThen p q s = some ((a, b), r2) := by
  unfold pThen
  simp only [hp, hq]

theorem pBinChain_done (pterm : P Expr) (ops : P (Expr → Expr → Expr)) (s : List Char)
    (e : Expr) (hterm : pterm s = some (e, [])) (hops : ops [] = none) :
    pBinChain pterm ops s = some (e, []) := by
  have hrep : pRepeated (pThen ops pterm) [] = some ([], []) :=
    pRepeated_of_none _ _ (by unfold pThen; rw [hops])
  have h1 : pThen pterm (pRepeated (pThen ops pterm)) s = some ((e, []), []) :=
    pThen_some _ _ _ _ _ _ _ hterm hrep
  unfold pBinChain pMap
  simp only [h1, List.foldl_nil]



theorem pExpr20_ident_call (c : Char) (cs0 t : List Char) (args : List Expr)
    (hc : isIdentStart c = true) (hcs : ∀ a ∈ cs0, isIdentCont a = true)
    (hargs : pCallArgs (pExpr 19) ('(' :: t) = some (args, [])) :
    pExpr 20 (c :: (cs0 ++ '(' :: t))
      = some (Expr.Call (String.mk (c :: cs0)) args, []) := by
  have hexpr : pExpr 20
      = pBinChain (pBinChain (pUnary (pAtom (pExpr 19))) pMulDiv) pAddSub := rfl
  rw [hexpr]
  have hatom := pAtom_ident_call (pExpr 19) c cs0 t args hc hcs hargs
  have hunary := pUnary_ident (pAtom (pExpr 19)) c (cs0 ++ '(' :: t) _ [] hc hatom
  have hprod := pBinChain_done (pUnary (pAtom (pExpr 19))) pMulDiv _ _ hunary rfl
  exact pBinChain_done _ pAddSub _ _ hprod rfl

theorem parser20_ident_call (f : String) (c : Char) (cs0 t : List Char) (args : List Expr)
    (hf : f.data = c :: cs0)
    (hc : isIdentStart c = true) (hcs : ∀ a ∈ cs0, isIdentCont a = true)
    (hargs : pCallArgs (pExpr 19) ('(' :: t) = some (args, [])) :
    parser 20 (f ++ String.mk ('(' :: t)) = some (Expr.Call f args) := by
  have hlist : (f ++ String.mk ('(' :: t)).toList = c :: (cs0 ++ '(' :: t) := by
    show (f ++ String.mk ('(' :: t)).data = c :: (cs0 ++ '(' :: t)
    rw [show (f ++ String.mk ('(' :: t)).data = f.data ++ '(' :: t from rfl, hf]
    rfl
  have hfm : String.mk (c :: cs0) = f := by
    cases f with
    | mk data =>
      simp only [String.data] at hf
      rw [hf]
  have hdecl : pDecl 20 20
      = pPadded (pOr (pLetDecl (pExpr 20) (pDecl 20 19))
          (pOr (pFnDecl (pExpr 20) (pDecl 20 19)) (pExpr 20))) := rfl
  unfold parser pThenIgnore pMap pThen
  rw [hlist, hdecl]
  unfold pPadded pOr
  rw [skipWS_cons_not_ws c _ (identStart_not_ws c hc)]
  simp only [pLetDecl_fails (pExpr 20) (pDecl 20 19) c cs0 t hc hcs,
    pFnDecl_fails (pExpr 20) (pDecl 20 19) c cs0 t hc hcs,
    pExpr20_ident_call c cs0 t args hc hcs hargs, hfm]
  simp [pEnd, skipWS]

/-! ## The claims -/

/-- Claim C1: the claim states that after a call whose lookup, arity
check and argument evaluation succeed, the variable stack is truncated
back to its pre-call length.  The code does not do this:
`vars.append(&mut args_evaled)` moves all elements out of
`args_evaled`, leaving it empty, so
`vars.truncate(vars.len() - args_evaled.len())` truncates by zero.
This theorem evaluates the code at the failing input
`fn f a = a; f(1) + a`: the parameter binding `("a", 1)` pushed for the
call `f(1)` is still on the stack afterwards, so the trailing `+ a`
resolves to 1 and the program evaluates to 2 with the binding left on
the final stack, where the claim requires `a` to be unbound. -/
theorem c1_call_leaves_param_bindings :
    parser 20 "fn f a = a; f(1) + a"
        = some (Expr.Fn "f" ["a"] (Expr.Var "a")
            (Expr.Add (Expr.Call "f" [Expr.Num (F64.num (Q.ofInt 1))]) (Expr.Var "a")))
      ∧ eval 20
            (Expr.Fn "f" ["a"] (Expr.Var "a")
              (Expr.Add (Expr.Call "f" [Expr.Num (F64.num (Q.ofInt 1))]) (Expr.Var "a")))
            [] []
          = (EvalResult.val (F64.num (Q.ofInt 2)), [("a", F64.num (Q.ofInt 1))], [])
      ∧ runProgram 20 "fn f a = a; f(1) + a" = some (EvalResult.val (F64.num (Q.ofInt 2))) :=
  ⟨rfl, rfl, rfl⟩

/-- Claim C2: the claim states that a LetBinding or FunctionDef node
leaves its stack at the length it had before the node was evaluated.
The code pushes and pops exactly one entry around the continuation, but
because the `Call` arm fails to truncate (the bug of C1), the
continuation itself can grow the variable stack, and the single pop
then removes a leaked call binding instead of the `let` binding.  This
theorem evaluates the failing input `let y = 1; fn f a = a; f(2)` (one
LetBinding node evaluated from the empty stack): afterwards the
variable stack is `[("y", 1)]`, length 1, not its pre-node length 0. -/
theorem c2_let_stack_not_restored :
    parser 20 "let y = 1; fn f a = a; f(2)"
        = some (Expr.Let "y" (Expr.Num (F64.num (Q.ofInt 1)))
            (Expr.Fn "f" ["a"] (Expr.Var "a") (Expr.Call "f" [Expr.Num (F64.num (Q.ofInt 2))])))
      ∧ eval 20
            (Expr.Let "y" (Expr.Num (F64.num (Q.ofInt 1)))
              (Expr.Fn "f" ["a"] (Expr.Var "a") (Expr.Call "f" [Expr.Num (F64.num (Q.ofInt 2))])))
            [] []
          = (EvalResult.val (F64.num (Q.ofInt 2)), [("y", F64.num (Q.ofInt 1))], []) :=
  ⟨rfl, rfl⟩

/-- Claim C3: evaluation of every variable- and call-free expression is
the standard arithmetic reading of its AST (first conjunct, for any
stacks and sufficient fuel), and parsing gives `*`/`/` precedence over
`+`/`-`, left associativity at both levels, and right-recursive unary
minus, as witnessed on `--3`, `2+3*4`, `(2+3)*4`, `1-2-3` and `8/4/2`;
in particular the three example programs evaluate to 3, 14 and 20. -/
theorem c3_arithmetic_matches_standard :
    (∀ (fuel : Nat) (e : Expr) (vars : Vars) (fns : Fns),
        varCallFree e = true → arithDepth e ≤ fuel →
        eval fuel e vars fns = (EvalResult.val (arith e), vars, fns))
      ∧ parser 20 "--3" = some (Expr.Neg (Expr.Neg (Expr.Num (F64.num (Q.ofInt 3)))))
      ∧ parser 20 "2+3*4"
          = some (Expr.Add (Expr.Num (F64.num (Q.ofInt 2)))
              (Expr.Mul (Expr.Num (F64.num (Q.ofInt 3))) (Expr.Num (F64.num (Q.ofInt 4)))))
      ∧ parser 20 "(2+3)*4"
          = some (Expr.Mul
              (Expr.Add (Expr.Num (F64.num (Q.ofInt 2))) (Expr.Num (F64.num (Q.ofInt 3))))
              (Expr.Num (F64.num (Q.ofInt 4))))
      ∧ parser 20 "1-2-3"
          = some (Expr.Sub
              (Expr.Sub (Expr.Num (F64.num (Q.ofInt 1))) (Expr.Num (F64.num (Q.ofInt 2))))
              (Expr.Num (F64.num (Q.ofInt 3))))
      ∧ parser 20 "8/4/2"
          = some (Expr.Div
              (Expr.Div (Expr.Num (F64.num (Q.ofInt 8))) (Expr.Num (F64.num (Q.ofInt 4))))
              (Expr.Num (F64.num (Q.ofInt 2))))
      ∧ runProgram 20 "--3" = some (EvalResult.val (F64.num (Q.ofInt 3)))
      ∧ runProgram 20 "2+3*4" = some (EvalResult.val (F64.num (Q.ofInt 14)))
      ∧ runProgram 20 "(2+3)*4" = some (EvalResult.val (F64.num (Q.ofInt 20))) :=
  ⟨fun fuel e vars fns hfree hd => eval_arith fuel e vars fns hfree hd,
    rfl, rfl, rfl, rfl, rfl, rfl, rfl, rfl⟩

/-- Witness for C3: the first conjunct applied to the concrete
expression `3*4` with fuel 5 and empty stacks. -/
theorem c3_arithmetic_matches_standard_witness :
    varCallFree (Expr.Mul (Expr.Num (F64.num (Q.ofInt 3))) (Expr.Num (F64.num (Q.ofInt 4)))) = true
      ∧ arithDepth (Expr.Mul (Expr.Num (F64.num (Q.ofInt 3))) (Expr.Num (F64.num (Q.ofInt 4)))) ≤ 5
      ∧ eval 5 (Expr.Mul (Expr.Num (F64.num (Q.ofInt 3))) (Expr.Num (F64.num (Q.ofInt 4)))) [] []
          = (EvalResult.val
              (arith (Expr.Mul (Expr.Num (F64.num (Q.ofInt 3))) (Expr.Num (F64.num (Q.ofInt 4))))),
            [], []) :=
  ⟨by decide, by decide,
    c3_arithmetic_matches_standard.1 5
      (Expr.Mul (Expr.Num (F64.num (Q.ofInt 3))) (Expr.Num (F64.num (Q.ofInt 4)))) [] []
      (by decide) (by decide)⟩

/-- Claim C4: whenever both operands of a Div node evaluate to values,
the Div node evaluates to `Ok` of their floating-point quotient and
never to an error (first conjunct); in particular `1/0` evaluates
successfully to positive infinity, an infinite value. -/
theorem c4_division_never_errors :
    (∀ (fuel : Nat) (a b : Expr) (vars : Vars) (fns : Fns) (x y : F64)
        (vars1 vars2 : Vars) (fns1 fns2 : Fns),
        eval fuel a vars fns = (EvalResult.val x, vars1, fns1) →
        eval fuel b vars1 fns1 = (EvalResult.val y, vars2, fns2) →
        eval (fuel + 1) (Expr.Div a b) vars fns
          = (EvalResult.val (F64.div x y), vars2, fns2))
      ∧ runProgram 20 "1/0" = some (EvalResult.val (F64.inf false))
      ∧ (F64.inf false).isInfinite = true :=
  ⟨fun fuel a b vars fns x y vars1 vars2 fns1 fns2 ha hb =>
      eval_div_ok fuel a b vars fns x y vars1 vars2 fns1 fns2 ha hb,
    rfl, rfl⟩

/-- Witness for C4: the first conjunct applied to the literals of
`1/0`. -/
theorem c4_division_never_errors_witness :
    eval 1 (Expr.Num (F64.num (Q.ofInt 1))) [] []
        = (EvalResult.val (F64.num (Q.ofInt 1)), [], [])
      ∧ eval 1 (Expr.Num (F64.num (Q.ofInt 0))) [] []
          = (EvalResult.val (F64.num (Q.ofInt 0)), [], [])
      ∧ eval 2 (Expr.Div (Expr.Num (F64.num (Q.ofInt 1))) (Expr.Num (F64.num (Q.ofInt 0)))) [] []
          = (EvalResult.val (F64.div (F64.num (Q.ofInt 1)) (F64.num (Q.ofInt 0))), [], []) :=
  ⟨rfl, rfl,
    c4_division_never_errors.1 1 (Expr.Num (F64.num (Q.ofInt 1)))
      (Expr.Num (F64.num (Q.ofInt 0))) [] [] (F64.num (Q.ofInt 1)) (F64.num (Q.ofInt 0))
      [] [] [] [] rfl rfl⟩

/-- Claim C5: a call's body is evaluated on the caller's variable stack
with only the parameter bindings appended on top (first conjunct, for
literal arguments), so free variables in the body resolve against the
caller's bindings — dynamic scoping; in particular
`let x = 10; fn f a = a + x; f(1)` evaluates to 11. -/
theorem c5_dynamic_scope_call_env :
    (∀ (fuel : Nat) (name : String) (ps : List String) (body : Expr)
        (vals : List F64) (vars : Vars) (fns : Fns),
        fns.reverse.find? (fun t => t.1 == name) = some (name, ps, body) →
        ps.length = vals.length →
        eval (fuel + 2) (Expr.Call name (vals.map Expr.Num)) vars fns
          = eval (fuel + 1) body (vars ++ ps.zip vals) fns)
      ∧ runProgram 20 "let x = 10; fn f a = a + x; f(1)"
          = some (EvalResult.val (F64.num (Q.ofInt 11))) :=
  ⟨fun fuel name ps body vals vars fns hf hlen =>
      eval_call_env fuel name ps body vals vars fns hf hlen,
    rfl⟩

/-- Witness for C5: the first conjunct applied to a one-parameter
function whose body is the parameter itself. -/
theorem c5_dynamic_scope_call_env_witness :
    ([("f", ["a"], Expr.Var "a")] : Fns).reverse.find? (fun t => t.1 == "f")
        = some ("f", ["a"], Expr.Var "a")
      ∧ (["a"] : List String).length = ([F64.num (Q.ofInt 1)] : List F64).length
      ∧ eval 3 (Expr.Call "f" ([F64.num (Q.ofInt 1)].map Expr.Num)) []
            [("f", ["a"], Expr.Var "a")]
          = eval 2 (Expr.Var "a") ([] ++ (["a"].zip [F64.num (Q.ofInt 1)]))
              [("f", ["a"], Expr.Var "a")] :=
  ⟨rfl, rfl,
    c5_dynamic_scope_call_env.1 1 "f" ["a"] (Expr.Var "a") [F64.num (Q.ofInt 1)] []
      [("f", ["a"], Expr.Var "a")] rfl rfl⟩

/-- Claim C6: a call to a function found on the stack whose parameter
count differs from the argument count fails with the arity-mismatch
message carrying the name and the two counts, leaving both stacks
untouched — so no argument has been evaluated (first conjunct); in
particular `add(2,3)` yields 5 and `add(2)` fails reporting expected 2,
found 1. -/
theorem c6_arity_mismatch :
    (∀ (fuel : Nat) (name : String) (args : List Expr) (ps : List String) (body : Expr)
        (vars : Vars) (fns : Fns),
        fns.reverse.find? (fun t => t.1 == name) = some (name, ps, body) →
        ps.length ≠ args.length →
        eval (fuel + 1) (Expr.Call name args) vars fns
          = (EvalResult.err (arityMsg name ps.length args.length), vars, fns))
      ∧ runProgram 20 "fn add a b = a + b; add(2,3)"
          = some (EvalResult.val (F64.num (Q.ofInt 5)))
      ∧ runProgram 20 "fn add a b = a + b; add(2)"
          = some (EvalResult.err (arityMsg "add" 2 1))
      ∧ arityMsg "add" 2 1
          = "Wrong number of arguments for function `add`: expected 2, found 1" :=
  ⟨fun fuel name args ps body vars fns hf hlen =>
      eval_call_arity fuel name args ps body vars fns hf hlen,
    rfl, rfl, rfl⟩

/-- Witness for C6: the first conjunct applied to `add(2)` with `add`
declared with two parameters. -/
theorem c6_arity_mismatch_witness :
    ([("add", ["a", "b"], Expr.Add (Expr.Var "a") (Expr.Var "b"))] : Fns).reverse.find?
        (fun t => t.1 == "add")
        = some ("add", ["a", "b"], Expr.Add (Expr.Var "a") (Expr.Var "b"))
      ∧ (["a", "b"] : List String).length ≠ ([Expr.Num (F64.num (Q.ofInt 2))] : List Expr).length
      ∧ eval 1 (Expr.Call "add" [Expr.Num (F64.num (Q.ofInt 2))]) []
            [("add", ["a", "b"], Expr.Add (Expr.Var "a") (Expr.Var "b"))]
          = (EvalResult.err (arityMsg "add" 2 1), [],
              [("add", ["a", "b"], Expr.Add (Expr.Var "a") (Expr.Var "b"))]) :=
  ⟨rfl, by decide,
    c6_arity_mismatch.1 0 "add" [Expr.Num (F64.num (Q.ofInt 2))] ["a", "b"]
      (Expr.Add (Expr.Var "a") (Expr.Var "b")) []
      [("add", ["a", "b"], Expr.Add (Expr.Var "a") (Expr.Var "b"))] rfl (by decide)⟩

/-- Claim C7: variable lookup scans the stack from the most recently
pushed entry backwards, so the most recent binding of a name wins
(first conjunct: any entry with no later binding of the same name is
the one returned, whatever older bindings exist); an unbound variable
fails with the undefined-variable message (second conjunct), and a call
to a name absent from the function stack fails with the
undefined-function message (third conjunct); `foo(1,2)` and a bare
`bar` fail accordingly. -/
theorem c7_lookup_shadowing_and_undefined :
    (∀ (fuel : Nat) (name : String) (x : F64) (pre post : Vars) (fns : Fns),
        (∀ p ∈ post, p.1 ≠ name) →
        eval (fuel + 1) (Expr.Var name) (pre ++ (name, x) :: post) fns
          = (EvalResult.val x, pre ++ (name, x) :: post, fns))
      ∧ (∀ (fuel : Nat) (name : String) (vars : Vars) (fns : Fns),
        (∀ p ∈ vars, p.1 ≠ name) →
        eval (fuel + 1) (Expr.Var name) vars fns
          = (EvalResult.err (undefinedVarMsg name), vars, fns))
      ∧ (∀ (fuel : Nat) (name : String) (args : List Expr) (vars : Vars) (fns : Fns),
        (∀ t ∈ fns, t.1 ≠ name) →
        eval (fuel + 1) (Expr.Call name args) vars fns
          = (EvalResult.err (undefinedFnMsg name), vars, fns))
      ∧ runProgram 20 "foo(1,2)" = some (EvalResult.err (undefinedFnMsg "foo"))
      ∧ runProgram 20 "bar" = some (EvalResult.err (undefinedVarMsg "bar"))
      ∧ undefinedFnMsg "foo" = "Cannot find function `foo` in scope"
      ∧ undefinedVarMsg "bar" = "Cannot find variable `bar` in scope" :=
  ⟨fun fuel name x pre post fns h => eval_var_found fuel name x pre post fns h,
    fun fuel name vars fns h => eval_var_notfound fuel name vars fns h,
    fun fuel name args vars fns h => eval_call_fn_notfound fuel name args vars fns h,
    rfl, rfl, rfl, rfl⟩

/-- Witness for C7: shadowed lookup on a stack holding two bindings of
`x` (the most recent wins), an unbound variable, and an undefined
function, each via the corresponding conjunct. -/
theorem c7_lookup_shadowing_and_undefined_witness :
    eval 1 (Expr.Var "x") ([("x", F64.num (Q.ofInt 1))] ++ ("x", F64.num (Q.ofInt 2)) :: []) []
        = (EvalResult.val (F64.num (Q.ofInt 2)),
            [("x", F64.num (Q.ofInt 1))] ++ ("x", F64.num (Q.ofInt 2)) :: [], [])
      ∧ eval 1 (Expr.Var "bar") [("x", F64.num (Q.ofInt 1))] []
          = (EvalResult.err (undefinedVarMsg "bar"), [("x", F64.num (Q.ofInt 1))], [])
      ∧ eval 1 (Expr.Call "foo" []) [] [("f", ["a"], Expr.Var "a")]
          = (EvalResult.err (undefinedFnMsg "foo"), [], [("f", ["a"], Expr.Var "a")]) :=
  ⟨c7_lookup_shadowing_and_undefined.1 0 "x" (F64.num (Q.ofInt 2))
      [("x", F64.num (Q.ofInt 1))] [] [] (by simp),
    c7_lookup_shadowing_and_undefined.2.1 0 "bar" [("x", F64.num (Q.ofInt 1))] [] (by decide),
    c7_lookup_shadowing_and_undefined.2.2.1 0 "foo" [] [] [("f", ["a"], Expr.Var "a")]
      (by decide)⟩

/-- Claim C8: for every identifier `f` and every argument text that the
call-argument grammar parses to a list `args` consuming everything up
to its closing parenthesis, the program `f(…)` parses to `Call f args`
(first conjunct); the argument texts `(1,2,)` and `(1,2)` parse to the
same argument list (second and third conjuncts), so `f(1,2,)` parses
identically to `f(1,2)` for every identifier, as also checked
concretely on one-argument and nested-argument instances. -/
theorem c8_trailing_comma_same_parse :
    (∀ (f : String) (c : Char) (cs0 t : List Char) (args : List Expr),
        f.data = c :: cs0 → isIdentStart c = true → (∀ a ∈ cs0, isIdentCont a = true) →
        pCallArgs (pExpr 19) ('(' :: t) = some (args, []) →
        parser 20 (f ++ String.mk ('(' :: t)) = some (Expr.Call f args))
      ∧ pCallArgs (pExpr 19) "(1,2,)".toList
          = some ([Expr.Num (F64.num (Q.ofInt 1)), Expr.Num (F64.num (Q.ofInt 2))], [])
      ∧ pCallArgs (pExpr 19) "(1,2)".toList
          = some ([Expr.Num (F64.num (Q.ofInt 1)), Expr.Num (F64.num (Q.ofInt 2))], [])
      ∧ parser 20 "f(1,2,)" = parser 20 "f(1,2)"
      ∧ parser 20 "f(1,2)"
          = some (Expr.Call "f" [Expr.Num (F64.num (Q.ofInt 1)), Expr.Num (F64.num (Q.ofInt 2))])
      ∧ parser 20 "g(7,)" = parser 20 "g(7)"
      ∧ parser 20 "h(1+2,g(3),)" = parser 20 "h(1+2,g(3))" :=
  ⟨fun f c cs0 t args hf hc hcs hargs => parser20_ident_call f c cs0 t args hf hc hcs hargs,
    rfl, rfl, rfl, rfl, rfl, rfl⟩

/-- Witness for C8: the general conjunct applied to the identifier
`myfn` and the trailing-comma argument text `(1,2,)`. -/
theorem c8_trailing_comma_same_parse_witness :
    ("myfn" : String).data = 'm' :: ['y', 'f', 'n']
      ∧ isIdentStart 'm' = true
      ∧ (∀ a ∈ (['y', 'f', 'n'] : List Char), isIdentCont a = true)
      ∧ pCallArgs (pExpr 19) ('(' :: "1,2,)".toList)
          = some ([Expr.Num (F64.num (Q.ofInt 1)), Expr.Num (F64.num (Q.ofInt 2))], [])
      ∧ parser 20 ("myfn" ++ String.mk ('(' :: "1,2,)".toList))
          = some (Expr.Call "myfn"
              [Expr.Num (F64.num (Q.ofInt 1)), Expr.Num (F64.num (Q.ofInt 2))]) :=
  ⟨rfl, by decide, by decide, rfl,
    c8_trailing_comma_same_parse.1 "myfn" 'm' ['y', 'f', 'n'] "1,2,)".toList
      [Expr.Num (F64.num (Q.ofInt 1)), Expr.Num (F64.num (Q.ofInt 2))] rfl (by decide)
      (by decide) rfl⟩

/-- Claim C9: a successful parse consumes the entire input (first
conjunct: whatever the parser accepts, the declaration grammar matched
with an empty remainder), and representative malformed inputs — an
unbalanced parenthesis, a `let` missing its `;`, and trailing input
after a well-formed expression — are rejected, so evaluation never
runs on them. -/
theorem c9_full_input_required :
    (∀ (fuel : Nat) (src : String) (e : Expr),
        parser fuel src = some e → pDecl fuel fuel src.toList = some (e, []))
      ∧ parser 20 "(2+3" = none
      ∧ parser 20 "let x = 1 2" = none
      ∧ parser 20 "1+2 x" = none
      ∧ runProgram 20 "(2+3" = none
      ∧ runProgram 20 "let x = 1 2" = none
      ∧ runProgram 20 "1+2 x" = none :=
  ⟨fun fuel src e h => parser_consumes_all fuel src e h,
    rfl, rfl, rfl, rfl, rfl, rfl⟩

/-- Witness for C9: the first conjunct applied to the accepted program
`1`. -/
theorem c9_full_input_required_witness :
    parser 5 "1" = some (Expr.Num (F64.num (Q.ofInt 1)))
      ∧ pDecl 5 5 "1".toList = some (Expr.Num (F64.num (Q.ofInt 1)), []) :=
  ⟨rfl, c9_full_input_required.1 5 "1" (Expr.Num (F64.num (Q.ofInt 1))) rfl⟩

/-- Claim C10: the `unwrap` in the number parser never panics: Rust's
`f64` conversion succeeds on every nonempty ASCII digit string (first
conjunct), and in particular on every token matched by the digit rule
of the number parser (second conjunct). -/
theorem c10_number_literal_unwrap_safe :
    (∀ ds : List Char, ds ≠ [] → (∀ c ∈ ds, c.isDigit = true) →
        (rustParseF64Core ds).isSome = true)
      ∧ (∀ (cs : List Char) (s : String) (rest : List Char),
        pIntRaw cs = some (s, rest) → (rustParseF64 s).isSome = true) :=
  ⟨fun ds h1 h2 => rustParseF64Core_digits ds h1 h2,
    fun cs s rest h => pIntRaw_parses cs s rest h⟩

/-- Witness for C10: both conjuncts applied to the digit string `42`. -/
theorem c10_number_literal_unwrap_safe_witness :
    (['4', '2'] : List Char) ≠ []
      ∧ (∀ c ∈ (['4', '2'] : List Char), c.isDigit = true)
      ∧ (rustParseF64Core ['4', '2']).isSome = true
      ∧ pIntRaw "42(".toList = some ("42", "(".toList)
      ∧ (rustParseF64 "42").isSome = true :=
  ⟨by decide, by decide,
    c10_number_literal_unwrap_safe.1 ['4', '2'] (by decide) (by decide),
    rfl,
    c10_number_literal_unwrap_safe.2 "42(".toList "42" "(".toList rfl⟩

end Chomsky
